import Mathlib

/-!
Shallow embedding of the time-entry tracking engine of the repository
(`plane/api/serializers/time_entry.py` and `plane/app/views/time_entry.py`).

Instants are modelled as integers counting microseconds since the epoch,
mirroring Python `datetime` arithmetic: `delta.total_seconds()` is the exact
microsecond difference divided by 10^6 and Python `int(...)` truncates toward
zero, so `int(delta.total_seconds())` is `Int.div` of the microsecond
difference by 1000000.  Database ids (workspace, project, issue, user,
module) are modelled as natural numbers.  `duration_seconds` is modelled as
an integer so that its non-negativity is a provable property of the
operations, not a typing artefact.
-/

namespace PlaneTime

/-- The `TimeEntrySource` choices of the model: `timer` / `manual`. -/
inductive TimeEntrySource where
  | manual
  | timer
deriving DecidableEq, Repr

/-- The `TimeEntry` model row (migration `0108_timeentry_issue_estimated_time`):
scope ids, owner, optional `started_at` / `ended_at` instants, duration,
source, note, billable flag. -/
structure TimeEntry where
  id : Nat
  workspace : Nat
  project : Nat
  issue : Nat
  user : Nat
  started_at : Option Int
  ended_at : Option Int
  duration_seconds : Int
  source : TimeEntrySource
  note : String
  is_billable : Bool
deriving DecidableEq, Repr

/-- A project row: only the fields the time-entry views consult. -/
structure Project where
  id : Nat
  is_time_tracking_enabled : Bool
deriving DecidableEq, Repr

/-- An issue row: only the fields the time-entry views consult. -/
structure Issue where
  id : Nat
  project_id : Nat
  workspace : Nat
deriving DecidableEq, Repr

/-- The persistent state the endpoints read and write: projects, issues,
`ModuleIssue` links `(issue_id, module_id)` in table order, time entries,
and a fresh-id counter for created rows. -/
structure Db where
  projects : List Project
  issues : List Issue
  moduleIssues : List (Nat × Nat)
  entries : List TimeEntry
  nextId : Nat
deriving DecidableEq, Repr

/-- Errors surfaced by the endpoints, keyed by the HTTP response each view
returns. -/
inductive ApiError where
  | featureDisabled
  | projectNotFound
  | issueNotFound
  | conflict
  | noActiveTimer
  | validation (field : String)
deriving DecidableEq, Repr

/-- `max(0, int(delta.total_seconds()))` as computed at
`time_entry.py` views lines 285 / 332 and serializer lines 96 / 199:
the microsecond difference is divided by 10^6 with truncation toward zero
(Python `int`), then clamped at zero. -/
def elapsed_seconds (start stop : Int) : Int :=
  max 0 (Int.tdiv (stop - start) 1000000)

/-- `Project.objects.get(id=...)` -/
def findProject (db : Db) (pid : Nat) : Option Project :=
  db.projects.find? (fun p => p.id = pid)

/-- `_check_time_tracking_enabled`: 404 when the project is missing, 403 when
time tracking is disabled, no error otherwise. -/
def checkTimeTracking (db : Db) (pid : Nat) : Option ApiError :=
  match findProject db pid with
  | none => some ApiError.projectNotFound
  | some p => if p.is_time_tracking_enabled then none else some ApiError.featureDisabled

/-- `Issue.objects.get(id=issue_id, project_id=project_id, workspace__slug=slug)` -/
def findIssue (db : Db) (slug pid iid : Nat) : Option Issue :=
  db.issues.find? (fun i => i.id = iid && i.project_id = pid && i.workspace = slug)

/-- The filter used by the timer endpoints:
`started_at__isnull=False, ended_at__isnull=True` (no source restriction). -/
def isRunningRow (e : TimeEntry) : Bool :=
  e.started_at.isSome && e.ended_at.isNone

/-- Stopping a timer row (`timer.ended_at = now; if timer.started_at: ...`):
`ended_at` is set unconditionally, the duration only when `started_at` is
present. -/
def stopEntry (now : Int) (e : TimeEntry) : TimeEntry :=
  { e with
    ended_at := some now
    duration_seconds :=
      match e.started_at with
      | some s => elapsed_seconds s now
      | none => e.duration_seconds }

/-- The fresh TIMER row created by `TimeEntryTimerEndpoint.post`
(`TimeEntry.objects.create(...)`): `started_at = now`, no `ended_at`,
`duration_seconds` left at the model default 0. -/
def newTimerEntry (db : Db) (issue : Issue) (iid user : Nat) (now : Int)
    (note : String) (is_billable : Bool) : TimeEntry :=
  { id := db.nextId
    workspace := issue.workspace
    project := issue.project_id
    issue := iid
    user := user
    started_at := some now
    ended_at := none
    duration_seconds := 0
    source := TimeEntrySource.timer
    note := note
    is_billable := is_billable }

/-- The in-place stop of every other running row of the user
(`for timer in other_active_timers: ... timer.save()`). -/
def stopOthers (db : Db) (iid user : Nat) (now : Int) : List TimeEntry :=
  db.entries.map (fun e =>
    if e.user = user && e.issue ≠ iid && isRunningRow e then stopEntry now e else e)

/-- `TimeEntryTimerEndpoint.post`: feature check, issue lookup, conflict check
on `(user, issue)`, silent stop of every other running row of the user, then
creation of a fresh TIMER entry started now.  The returned `Db` is the input
state on every error path (the view returns before any write). -/
def startTimer (db : Db) (slug pid iid user : Nat) (now : Int)
    (note : String) (is_billable : Bool) : Except ApiError TimeEntry × Db :=
  match checkTimeTracking db pid with
  | some err => (Except.error err, db)
  | none =>
    match findIssue db slug pid iid with
    | none => (Except.error ApiError.issueNotFound, db)
    | some issue =>
      match db.entries.find? (fun e => e.issue = iid && e.user = user && isRunningRow e) with
      | some _ => (Except.error ApiError.conflict, db)
      | none =>
        (Except.ok (newTimerEntry db issue iid user now note is_billable),
          { db with
            entries := stopOthers db iid user now
              ++ [newTimerEntry db issue iid user now note is_billable]
            nextId := db.nextId + 1 })

/-- `TimeEntryTimerEndpoint.delete`: feature check, lookup of the running row
for `(user, issue)` (404 when absent), then stop and save in place. -/
def stopTimer (db : Db) (_slug : Nat) (pid iid user : Nat) (now : Int) :
    Except ApiError TimeEntry × Db :=
  match checkTimeTracking db pid with
  | some err => (Except.error err, db)
  | none =>
    match db.entries.find? (fun e => e.issue = iid && e.user = user && isRunningRow e) with
    | none => (Except.error ApiError.noActiveTimer, db)
    | some t =>
      let t' := stopEntry now t
      (Except.ok t',
        { db with entries := db.entries.map (fun e => if e.id = t.id then t' else e) })

/-- `TimeEntryActiveTimerEndpoint.get`: returns the running row for
`(user, issue)` or `none`.  The view performs no feature-toggle check and
always answers 200, hence the `Except.ok`. -/
def activeTimerGet (db : Db) (_slug _pid : Nat) (iid user : Nat) :
    Except ApiError (Option TimeEntry) :=
  Except.ok (db.entries.find? (fun e => e.issue = iid && e.user = user && isRunningRow e))

/-- The `is_active` field computed by `TimeEntrySerializer.to_representation`:
`started_at` present, `ended_at` absent, and source TIMER. -/
def isActiveRepr (e : TimeEntry) : Bool :=
  e.started_at.isSome && e.ended_at.isNone && e.source = TimeEntrySource.timer

/-- A write payload for `TimeEntrySerializer.validate`: each field is absent
or present, mirroring `data.get(...)`. -/
structure EntryPayload where
  source : Option TimeEntrySource
  started_at : Option Int
  ended_at : Option Int
  duration_seconds : Option Int
deriving DecidableEq, Repr

/-- `TimeEntrySerializer.validate` (serializer lines 63-98): source defaults
to MANUAL and duration to 0; MANUAL requires a positive duration; TIMER
requires `started_at`; when both instants are present the range is checked
and a zero duration is replaced by the elapsed seconds. -/
def teValidate (d : EntryPayload) : Except String EntryPayload :=
  let source := d.source.getD TimeEntrySource.manual
  let duration := d.duration_seconds.getD 0
  if source = TimeEntrySource.manual ∧ duration ≤ 0 then
    Except.error "duration_seconds"
  else if source = TimeEntrySource.timer ∧ d.started_at = none then
    Except.error "started_at"
  else
    match d.started_at, d.ended_at with
    | some s, some e =>
      if s > e then Except.error "range"
      else if duration = 0 then
        Except.ok { d with duration_seconds := some (elapsed_seconds s e) }
      else Except.ok d
    | _, _ => Except.ok d

/-- A payload for `TimeEntryCreateSerializer` (the quick-create path).
`issue_id` is required by the serializer but the view rebinds the issue from
the URL. -/
structure CreatePayload where
  issue_id : Nat
  duration_seconds : Option Int
  started_at : Option Int
  ended_at : Option Int
  source : Option TimeEntrySource
  note : Option String
  is_billable : Option Bool
deriving DecidableEq, Repr

/-- `TimeEntryCreateSerializer.validate` (serializer lines 152-164): MANUAL
requires a truthy `duration_seconds` (absent and 0 both fail); TIMER defaults
a missing `started_at` to now.  No range check, no duration derivation. -/
def quickCreateValidate (now : Int) (d : CreatePayload) : Except String CreatePayload :=
  let source := d.source.getD TimeEntrySource.manual
  if source = TimeEntrySource.manual then
    if d.duration_seconds.getD 0 = 0 then Except.error "duration_seconds"
    else Except.ok d
  else
    if d.started_at = none then Except.ok { d with started_at := some now }
    else Except.ok d

/-- `TimeEntryViewSet.create` (views lines 100-132): feature check, issue
lookup, the `min_value=0` field bound on `duration_seconds`, quick-create
validation, then creation with `source` overwritten to MANUAL and model
defaults for the absent fields (`duration_seconds = 0`). -/
def viewCreate (db : Db) (slug pid iid user : Nat) (now : Int) (d : CreatePayload) :
    Except ApiError TimeEntry × Db :=
  match checkTimeTracking db pid with
  | some err => (Except.error err, db)
  | none =>
    match findIssue db slug pid iid with
    | none => (Except.error ApiError.issueNotFound, db)
    | some issue =>
      if d.duration_seconds.getD 0 < 0 then
        (Except.error (ApiError.validation "min_value"), db)
      else
        match quickCreateValidate now d with
        | Except.error f => (Except.error (ApiError.validation f), db)
        | Except.ok v =>
          let newEntry : TimeEntry :=
            { id := db.nextId
              workspace := issue.workspace
              project := issue.project_id
              issue := iid
              user := user
              started_at := v.started_at
              ended_at := v.ended_at
              duration_seconds := v.duration_seconds.getD 0
              source := TimeEntrySource.manual
              note := (v.note.getD "")
              is_billable := v.is_billable.getD false }
          (Except.ok newEntry,
            { db with entries := db.entries ++ [newEntry], nextId := db.nextId + 1 })

/-- A patch payload for `TimeEntryUpdateSerializer`. -/
structure UpdatePayload where
  duration_seconds : Option Int
  started_at : Option Int
  ended_at : Option Int
  note : Option String
  is_billable : Option Bool
deriving DecidableEq, Repr

/-- `TimeEntryUpdateSerializer.validate` (serializer lines 182-201): the
instants are merged with the instance (`data.get(..) or self.instance...`),
the range is checked, and when the payload's `duration_seconds` is absent or
zero the merged delta is written into the patch. -/
def updateValidate (inst : TimeEntry) (d : UpdatePayload) : Except String UpdatePayload :=
  let s := match d.started_at with | some v => some v | none => inst.started_at
  let e := match d.ended_at with | some v => some v | none => inst.ended_at
  match s, e with
  | some ss, some ee =>
    if ss > ee then Except.error "range"
    else
      match d.duration_seconds with
      | none => Except.ok { d with duration_seconds := some (elapsed_seconds ss ee) }
      | some v =>
        if v = 0 then Except.ok { d with duration_seconds := some (elapsed_seconds ss ee) }
        else Except.ok d
  | _, _ => Except.ok d

/-- `serializer.save()` on the partial update: each field present in the
validated patch overwrites the instance field. -/
def applyUpdate (inst : TimeEntry) (d : UpdatePayload) : TimeEntry :=
  { inst with
    duration_seconds := d.duration_seconds.getD inst.duration_seconds
    started_at := match d.started_at with | some v => some v | none => inst.started_at
    ended_at := match d.ended_at with | some v => some v | none => inst.ended_at
    note := d.note.getD inst.note
    is_billable := d.is_billable.getD inst.is_billable }

/-- Validation followed by save, the serializer part of
`TimeEntryViewSet.partial_update`. -/
def viewPartialUpdate (inst : TimeEntry) (d : UpdatePayload) : Except String TimeEntry :=
  (updateValidate inst d).map (applyUpdate inst)

/-- Accumulator for `keysOf`: append each unseen key. -/
def keysAux (acc : List Nat) : List Nat → List Nat
  | [] => acc
  | a :: rest => keysAux (if a ∈ acc then acc else acc ++ [a]) rest

/-- Distinct keys of a list in first-occurrence order: the grouping keys
produced by Django `.values(k).annotate(...)` and by Python dict insertion
while aggregating. -/
def keysOf (l : List Nat) : List Nat := keysAux [] l

/-- Insert into a list sorted by `key` descending, after all strictly larger
keys (a stable descending insertion). -/
def insertDesc {α : Type} (key : α → Int) (x : α) : List α → List α
  | [] => [x]
  | y :: ys => if key y < key x then x :: y :: ys else y :: insertDesc key x ys

/-- Stable sort by `key` descending (`order_by("-total_seconds")` /
`list.sort(key=..., reverse=True)`). -/
def sortDesc {α : Type} (key : α → Int) (l : List α) : List α :=
  l.foldr (insertDesc key) []

/-- The base queryset of `TimeEntryReportsEndpoint.get`: entries of the
workspace with `ended_at` set, optionally narrowed by project and user.
(The optional `from`/`to` creation-date window of the view is orthogonal to
the claims and not modelled.) -/
def reportBase (db : Db) (slug : Nat) (pid uid : Option Nat) : List TimeEntry :=
  db.entries.filter (fun e =>
    e.workspace = slug && e.ended_at.isSome
      && (match pid with | none => true | some p => e.project = p)
      && (match uid with | none => true | some u => e.user = u))

/-- A `group_by=user` report row. -/
structure UserRow where
  user_id : Nat
  total_seconds : Int
  entry_count : Nat
deriving DecidableEq, Repr

/-- The aggregate row of one user over the base queryset:
`Sum("duration_seconds")` and `Count("id")`. -/
def userRowOf (base : List TimeEntry) (u : Nat) : UserRow :=
  { user_id := u
    total_seconds := ((base.filter (fun e => e.user = u)).map
        (fun e => e.duration_seconds)).sum
    entry_count := (base.filter (fun e => e.user = u)).length }

/-- `group_by=user`: `values(user).annotate(Sum(duration_seconds), Count(id))
.order_by("-total_seconds")`. -/
def reportByUser (db : Db) (slug : Nat) (pid uid : Option Nat) : List UserRow :=
  sortDesc (fun r => r.total_seconds)
    ((keysOf ((reportBase db slug pid uid).map (fun e => e.user))).map
      (userRowOf (reportBase db slug pid uid)))

/-- `ModuleIssue.objects.filter(issue_id=...).first()`: the first module link
of an issue in table order, if any. -/
def firstModuleOf (db : Db) (iid : Nat) : Option Nat :=
  (db.moduleIssues.find? (fun p => p.1 = iid)).map (fun p => p.2)

/-- A per-issue aggregate of the module report before bucketing. -/
structure IssueRow where
  issue_id : Nat
  total_seconds : Int
  entry_count : Nat
deriving DecidableEq, Repr

/-- A `group_by=module` report row. -/
structure ModuleRow where
  module_id : Nat
  total_seconds : Int
  entry_count : Nat
deriving DecidableEq, Repr

/-- Adding an issue aggregate into the bucket row of module `m`
(`module_aggregates[module_id]["total_seconds"] += ...`). -/
def bumpRow (m : Nat) (t : Int) (c : Nat) (r : ModuleRow) : ModuleRow :=
  if r.module_id = m then
    { r with total_seconds := r.total_seconds + t, entry_count := r.entry_count + c }
  else r

/-- One step of the `module_aggregates` dict accumulation: add an issue
aggregate to the bucket of module `m`, creating the bucket at the end when
absent (Python dict insertion order). -/
def addToBucket (acc : List ModuleRow) (m : Nat) (t : Int) (c : Nat) : List ModuleRow :=
  if acc.any (fun r => r.module_id = m) then acc.map (bumpRow m t c)
  else acc ++ [{ module_id := m, total_seconds := t, entry_count := c }]

/-- The body of the `for item in report_data` loop of the module branch:
issues without a module link are skipped, the rest are folded into their
first module's bucket. -/
def bucketStep (db : Db) (acc : List ModuleRow) (r : IssueRow) : List ModuleRow :=
  match firstModuleOf db r.issue_id with
  | none => acc
  | some m => addToBucket acc m r.total_seconds r.entry_count

/-- The `module_aggregates` accumulation over the per-issue rows. -/
def moduleBuckets (db : Db) (rows : List IssueRow) : List ModuleRow :=
  rows.foldl (bucketStep db) []

/-- Total seconds held by the bucket rows of module `m`. -/
def rowsTotal (m : Nat) (rows : List ModuleRow) : Int :=
  ((rows.filter (fun r => r.module_id = m)).map (fun r => r.total_seconds)).sum

/-- Entry count held by the bucket rows of module `m`. -/
def rowsCount (m : Nat) (rows : List ModuleRow) : Nat :=
  ((rows.filter (fun r => r.module_id = m)).map (fun r => r.entry_count)).sum

/-- The aggregate row of one issue over the base queryset
(`values("issue_id", ...).annotate(Sum, Count)`). -/
def issueRowOf (base : List TimeEntry) (i : Nat) : IssueRow :=
  { issue_id := i
    total_seconds := ((base.filter (fun e => e.issue = i)).map
        (fun e => e.duration_seconds)).sum
    entry_count := (base.filter (fun e => e.issue = i)).length }

/-- `group_by=module`: per-issue aggregation, first-module lookup, dict
bucketing that skips issues without a module, then a stable sort by
`total_seconds` descending. -/
def reportByModule (db : Db) (slug : Nat) (pid uid : Option Nat) : List ModuleRow :=
  sortDesc (fun r => r.total_seconds)
    (moduleBuckets db
      ((keysOf ((reportBase db slug pid uid).map (fun e => e.issue))).map
        (issueRowOf (reportBase db slug pid uid))))

/-! ### Concrete fixtures used by witnesses and counterexamples -/

/-- A project with time tracking enabled. -/
def projOn : Project := { id := 1, is_time_tracking_enabled := true }

/-- A project with time tracking disabled. -/
def projOff : Project := { id := 2, is_time_tracking_enabled := false }

def issueA : Issue := { id := 10, project_id := 1, workspace := 0 }

def issueB : Issue := { id := 11, project_id := 1, workspace := 0 }

/-- An issue living in the project with time tracking disabled. -/
def issueOff : Issue := { id := 20, project_id := 2, workspace := 0 }

/-- A running TIMER row of user 7 on issue 10, started at instant 0. -/
def runningA : TimeEntry :=
  { id := 100, workspace := 0, project := 1, issue := 10, user := 7,
    started_at := some 0, ended_at := none, duration_seconds := 0,
    source := TimeEntrySource.timer, note := "", is_billable := false }

def db1 : Db :=
  { projects := [projOn, projOff], issues := [issueA, issueB, issueOff],
    moduleIssues := [], entries := [runningA], nextId := 200 }

/-- `runningA` stopped at instant 5400000000 (= 5400 s later). -/
def stoppedA : TimeEntry :=
  { runningA with ended_at := some 5400000000, duration_seconds := 5400 }

def db1Stopped : Db := { db1 with entries := [stoppedA] }

/-- A MANUAL row with `started_at` set and `ended_at` null: not a timer, yet
matched by the timer queries. -/
def manualRunning : TimeEntry := { runningA with id := 101, source := TimeEntrySource.manual }

def db2 : Db := { db1 with entries := [manualRunning] }

/-- 2024-01-01T10:00:00 UTC in microseconds since the epoch. -/
def t1000 : Int := 1704103200000000

/-- 2024-01-01T11:30:00 UTC in microseconds since the epoch. -/
def t1130 : Int := 1704108600000000

def entU1a : TimeEntry :=
  { id := 1, workspace := 0, project := 1, issue := 10, user := 1,
    started_at := some 0, ended_at := some 3600000000, duration_seconds := 3600,
    source := TimeEntrySource.manual, note := "", is_billable := false }

def entU1b : TimeEntry :=
  { entU1a with id := 2, ended_at := some 1800000000, duration_seconds := 1800 }

def entU2 : TimeEntry :=
  { entU1a with id := 3, user := 2, ended_at := some 900000000, duration_seconds := 900 }

/-- The workspace of the C6 example: completed entries U1:3600s, U1:1800s,
U2:900s. -/
def dbReport : Db :=
  { projects := [projOn], issues := [issueA], moduleIssues := [],
    entries := [entU1a, entU1b, entU2], nextId := 50 }

def entM10 : TimeEntry :=
  { id := 4, workspace := 0, project := 1, issue := 10, user := 1,
    started_at := some 0, ended_at := some 1000000000, duration_seconds := 1000,
    source := TimeEntrySource.manual, note := "", is_billable := false }

def entM12 : TimeEntry :=
  { entM10 with id := 5, issue := 12, duration_seconds := 200 }

/-- The workspace of the C7 example: issue 10 linked to modules 5 and 6 (in
that order), issue 12 linked to no module. -/
def dbModule : Db :=
  { projects := [projOn], issues := [issueA], moduleIssues := [(10, 5), (10, 6)],
    entries := [entM10, entM12], nextId := 60 }

/-- An existing completed entry whose stored duration matches its instants. -/
def instUpd : TimeEntry :=
  { id := 40, workspace := 0, project := 1, issue := 10, user := 7,
    started_at := some t1000, ended_at := some t1130, duration_seconds := 5400,
    source := TimeEntrySource.manual, note := "", is_billable := false }

/-- A patch supplying only an explicit positive duration. -/
def patchUpd : UpdatePayload :=
  { duration_seconds := some 4000, started_at := none, ended_at := none,
    note := none, is_billable := none }

/-- A quick-create payload with `source = TIMER` and no `duration_seconds`. -/
def timerPayload : CreatePayload :=
  { issue_id := 10, duration_seconds := none, started_at := none,
    ended_at := none, source := some TimeEntrySource.timer,
    note := none, is_billable := none }

/-- The entry the issue-scoped create endpoint persists for `timerPayload`
at instant 777: `source` overwritten to MANUAL, duration left at 0. -/
def c9entry : TimeEntry :=
  { id := 200, workspace := 0, project := 1, issue := 10, user := 7,
    started_at := some 777, ended_at := none, duration_seconds := 0,
    source := TimeEntrySource.manual, note := "", is_billable := false }

def c9db : Db := { db1 with entries := [runningA, c9entry], nextId := 201 }

/-- The entry and state produced by a preempting start on issue 11 in `db2`. -/
def startedB : TimeEntry := newTimerEntry db2 issueB 11 7 55 "" false

def db2Started : Db :=
  { db2 with
    entries := stopOthers db2 11 7 55 ++ [startedB]
    nextId := db2.nextId + 1 }

/-! ### Arithmetic facts about the duration engine -/

theorem elapsed_seconds_nonneg (s t : Int) : 0 ≤ elapsed_seconds s t :=
  le_max_left 0 _

theorem max_tdiv_eq_max_fdiv (n : Int) :
    max 0 (Int.tdiv n 1000000) = max 0 (Int.fdiv n 1000000) := by
  rcases le_or_lt 0 n with h | h
  · rw [Int.tdiv_eq_ediv h (by norm_num), Int.fdiv_eq_ediv n (by norm_num)]
  · have h1 : Int.tdiv n 1000000 ≤ 0 := by
      have h2 := Int.tdiv_nonneg (a := -n) (b := 1000000) (by omega) (by norm_num)
      rw [Int.neg_tdiv] at h2
      omega
    have h3 : Int.fdiv n 1000000 ≤ 0 := by
      rw [Int.fdiv_eq_ediv n (by norm_num)]
      exact le_of_lt (Int.ediv_neg' h (by norm_num))
    rw [max_eq_left h1, max_eq_left h3]

/-! ### Grouping keys -/

theorem mem_keysAux : ∀ (l acc : List Nat) (x : Nat),
    x ∈ keysAux acc l ↔ x ∈ acc ∨ x ∈ l := by
  intro l
  induction l with
  | nil => intro acc x; simp [keysAux]
  | cons a rest ih =>
    intro acc x
    rw [keysAux]
    by_cases h : a ∈ acc
    · rw [if_pos h, ih]
      constructor
      · rintro (hx | hx)
        · exact Or.inl hx
        · exact Or.inr (List.mem_cons_of_mem _ hx)
      · rintro (hx | hx)
        · exact Or.inl hx
        · rcases List.mem_cons.mp hx with rfl | hx
          · exact Or.inl h
          · exact Or.inr hx
    · rw [if_neg h, ih]
      simp only [List.mem_append, List.mem_singleton, List.mem_cons]
      tauto

theorem nodup_keysAux : ∀ (l acc : List Nat), acc.Nodup → (keysAux acc l).Nodup := by
  intro l
  induction l with
  | nil => intro acc h; simpa [keysAux] using h
  | cons a rest ih =>
    intro acc h
    rw [keysAux]
    by_cases hmem : a ∈ acc
    · rw [if_pos hmem]
      exact ih acc h
    · rw [if_neg hmem]
      refine ih _ (List.Nodup.append h (List.nodup_singleton a) ?_)
      intro x hx hx'
      simp only [List.mem_singleton] at hx'
      subst hx'
      exact hmem hx

theorem mem_keysOf {l : List Nat} {a : Nat} : a ∈ keysOf l ↔ a ∈ l := by
  unfold keysOf
  rw [mem_keysAux]
  simp

theorem nodup_keysOf (l : List Nat) : (keysOf l).Nodup :=
  nodup_keysAux l [] List.nodup_nil

/-! ### Stable descending insertion sort -/

theorem mem_insertDesc {α : Type} (key : α → Int) (x : α) (l : List α) (a : α) :
    a ∈ insertDesc key x l ↔ a = x ∨ a ∈ l := by
  induction l with
  | nil => simp [insertDesc]
  | cons y ys ih =>
    rw [insertDesc]
    by_cases h : key y < key x
    · simp [h]
    · simp [h, ih]
      tauto

theorem perm_insertDesc {α : Type} (key : α → Int) (x : α) (l : List α) :
    (insertDesc key x l).Perm (x :: l) := by
  induction l with
  | nil => exact List.Perm.refl _
  | cons y ys ih =>
    rw [insertDesc]
    by_cases h : key y < key x
    · rw [if_pos h]
    · rw [if_neg h]
      exact (ih.cons y).trans (List.Perm.swap x y ys)

theorem perm_sortDesc {α : Type} (key : α → Int) (l : List α) :
    (sortDesc key l).Perm l := by
  induction l with
  | nil => exact List.Perm.refl _
  | cons a l ih =>
    have : sortDesc key (a :: l) = insertDesc key a (sortDesc key l) := rfl
    rw [this]
    exact (perm_insertDesc key a _).trans (ih.cons a)

theorem pairwise_insertDesc {α : Type} (key : α → Int) (x : α) (l : List α)
    (h : l.Pairwise (fun a b => key b ≤ key a)) :
    (insertDesc key x l).Pairwise (fun a b => key b ≤ key a) := by
  induction l with
  | nil => simp [insertDesc]
  | cons y ys ih =>
    rcases List.pairwise_cons.mp h with ⟨hy, hys⟩
    rw [insertDesc]
    by_cases hlt : key y < key x
    · rw [if_pos hlt]
      refine List.pairwise_cons.mpr ⟨?_, h⟩
      intro z hz
      rcases List.mem_cons.mp hz with rfl | hz
      · exact le_of_lt hlt
      · exact le_trans (hy z hz) (le_of_lt hlt)
    · rw [if_neg hlt]
      refine List.pairwise_cons.mpr ⟨?_, ih hys⟩
      intro z hz
      rcases (mem_insertDesc key x ys z).mp hz with rfl | hz
      · exact not_lt.mp hlt
      · exact hy z hz

theorem pairwise_sortDesc {α : Type} (key : α → Int) (l : List α) :
    (sortDesc key l).Pairwise (fun a b => key b ≤ key a) := by
  induction l with
  | nil => simp [sortDesc]
  | cons a l ih => exact pairwise_insertDesc key a _ ih

/-! ### Partitioned sums -/

theorem sum_map_filter_split {α : Type} {M : Type} [AddCommMonoid M]
    (g : α → M) (p q : α → Bool) (l : List α) :
    ((l.filter p).map g).sum
      = ((l.filter (fun x => p x && q x)).map g).sum
        + ((l.filter (fun x => p x && !q x)).map g).sum := by
  induction l with
  | nil => simp
  | cons a l ih =>
    by_cases hp : p a
    · by_cases hq : q a <;> simp [hp, hq, ih] <;> abel
    · simp [hp, ih]

theorem sum_over_keys {α : Type} {M : Type} [AddCommMonoid M]
    (key : α → Nat) (g : α → M) (P : Nat → Bool) :
    ∀ (ks : List Nat) (L : List α), ks.Nodup → (∀ x ∈ L, key x ∈ ks) →
      (((ks.filter P).map
          (fun k => ((L.filter (fun x => key x = k)).map g).sum)).sum)
        = ((L.filter (fun x => P (key x))).map g).sum := by
  intro ks
  induction ks with
  | nil =>
    intro L _ hL
    have hnil : L.filter (fun x => P (key x)) = [] :=
      List.filter_eq_nil_iff.mpr (fun a ha _ => (List.not_mem_nil (key a)) (hL a ha))
    simp [hnil]
  | cons k ks ih =>
    intro L hnd hL
    rcases List.nodup_cons.mp hnd with ⟨hk, hnd'⟩
    have hsplit := sum_map_filter_split g (fun x => P (key x)) (fun x => key x = k) L
    have htail : ∀ k' ∈ ks.filter P,
        ((L.filter (fun x => key x = k')).map g).sum
          = (((L.filter (fun x => !(key x = k))).filter (fun x => key x = k')).map g).sum := by
      intro k' hk'
      have hk'mem : k' ∈ ks := (List.mem_filter.mp hk').1
      have hkne : k' ≠ k := fun h => hk (h ▸ hk'mem)
      have : (L.filter (fun x => !(key x = k))).filter (fun x => key x = k')
          = L.filter (fun x => key x = k') := by
        rw [List.filter_filter]
        refine List.filter_congr ?_
        intro x _
        by_cases hx : key x = k'
        · have hnk : ¬ (key x = k) := fun hc => hkne (by rw [← hx, hc])
          simp [hx, hnk, hkne]
        · simp [hx]
      rw [this]
    have hihpre : ∀ x ∈ L.filter (fun x => !(key x = k)), key x ∈ ks := by
      intro x hx
      rcases List.mem_filter.mp hx with ⟨hxL, hxk⟩
      rcases List.mem_cons.mp (hL x hxL) with h | h
      · simp [h] at hxk
      · exact h
    have hih := ih (L.filter (fun x => !(key x = k))) hnd' hihpre
    have htail2 : ((ks.filter P).map
        (fun k' => ((L.filter (fun x => key x = k')).map g).sum)).sum
        = ((L.filter (fun x => P (key x) && !(key x = k))).map g).sum := by
      rw [List.map_congr_left htail, hih, List.filter_filter]
    by_cases hPk : P k
    · rw [List.filter_cons_of_pos hPk, List.map_cons, List.sum_cons]
      have hhead : ((L.filter (fun x => key x = k)).map g).sum
          = ((L.filter (fun x => P (key x) && (key x = k))).map g).sum := by
        refine congrArg _ (congrArg _ (List.filter_congr ?_))
        intro x _
        by_cases hx : key x = k
        · simp [hx, hPk]
        · simp [hx]
      rw [hhead, htail2, hsplit]
    · rw [List.filter_cons_of_neg hPk]
      have hzero : L.filter (fun x => P (key x) && (key x = k)) = [] := by
        refine List.filter_eq_nil_iff.mpr ?_
        intro a _ hcontra
        simp only [Bool.and_eq_true, decide_eq_true_eq] at hcontra
        rcases hcontra with ⟨hPa, hka⟩
        rw [hka] at hPa
        exact hPk hPa
      rw [htail2, hsplit, hzero]
      simp

/-! ### Module bucket accumulation -/

theorem bumpRow_module_id (m : Nat) (t : Int) (c : Nat) (r : ModuleRow) :
    (bumpRow m t c r).module_id = r.module_id := by
  unfold bumpRow
  by_cases hr : r.module_id = m <;> simp [hr]

theorem rowsTotal_cons (m' : Nat) (r : ModuleRow) (l : List ModuleRow) :
    rowsTotal m' (r :: l)
      = (if r.module_id = m' then r.total_seconds else 0) + rowsTotal m' l := by
  unfold rowsTotal
  by_cases h : r.module_id = m' <;> simp [h]

theorem rowsCount_cons (m' : Nat) (r : ModuleRow) (l : List ModuleRow) :
    rowsCount m' (r :: l)
      = (if r.module_id = m' then r.entry_count else 0) + rowsCount m' l := by
  unfold rowsCount
  by_cases h : r.module_id = m' <;> simp [h]

theorem exists_key_addToBucket (acc : List ModuleRow) (m : Nat) (t : Int) (c : Nat)
    (m' : Nat) :
    (∃ r ∈ addToBucket acc m t c, r.module_id = m')
      ↔ (∃ r ∈ acc, r.module_id = m') ∨ m' = m := by
  unfold addToBucket
  by_cases h : acc.any (fun r => r.module_id = m)
  · rw [if_pos h]
    constructor
    · rintro ⟨r, hr, hid⟩
      rcases List.mem_map.mp hr with ⟨r0, hr0, rfl⟩
      exact Or.inl ⟨r0, hr0, by rw [← bumpRow_module_id m t c r0]; exact hid⟩
    · intro hor
      rcases hor with ⟨r, hr, hid⟩ | heq
      · exact ⟨bumpRow m t c r, List.mem_map_of_mem _ hr,
          by rw [bumpRow_module_id]; exact hid⟩
      · rcases List.any_eq_true.mp h with ⟨r, hr, hid⟩
        exact ⟨bumpRow m t c r, List.mem_map_of_mem _ hr,
          by rw [bumpRow_module_id, heq]; simpa using hid⟩
  · rw [if_neg h]
    constructor
    · rintro ⟨r, hr, hid⟩
      rcases List.mem_append.mp hr with hr | hr
      · exact Or.inl ⟨r, hr, hid⟩
      · simp only [List.mem_singleton] at hr
        subst hr
        exact Or.inr hid.symm
    · intro hor
      rcases hor with ⟨r, hr, hid⟩ | heq
      · exact ⟨r, List.mem_append_left _ hr, hid⟩
      · exact ⟨{ module_id := m, total_seconds := t, entry_count := c },
          List.mem_append_right _ (List.mem_singleton_self _), heq.symm⟩

theorem nodup_keys_addToBucket (acc : List ModuleRow) (m : Nat) (t : Int) (c : Nat)
    (hnd : (acc.map (fun r => r.module_id)).Nodup) :
    ((addToBucket acc m t c).map (fun r => r.module_id)).Nodup := by
  unfold addToBucket
  by_cases h : acc.any (fun r => r.module_id = m)
  · rw [if_pos h]
    have hkeys : (acc.map (bumpRow m t c)).map (fun r => r.module_id)
        = acc.map (fun r => r.module_id) := by
      rw [List.map_map]
      exact List.map_congr_left (fun r _ => bumpRow_module_id m t c r)
    rw [hkeys]
    exact hnd
  · rw [if_neg h, List.map_append]
    refine List.Nodup.append hnd (List.nodup_singleton m) ?_
    intro a ha hb
    simp only [List.map_cons, List.map_nil, List.mem_singleton] at hb
    subst hb
    rcases List.mem_map.mp ha with ⟨r, hr, hrm⟩
    exact h (List.any_eq_true.mpr ⟨r, hr, by simp [hrm]⟩)

theorem rows_map_bump (m : Nat) (t : Int) (c : Nat) :
    ∀ (acc : List ModuleRow), (acc.map (fun r => r.module_id)).Nodup →
      m ∈ acc.map (fun r => r.module_id) → ∀ m',
      rowsTotal m' (acc.map (bumpRow m t c))
          = rowsTotal m' acc + (if m' = m then t else 0)
      ∧ rowsCount m' (acc.map (bumpRow m t c))
          = rowsCount m' acc + (if m' = m then c else 0) := by
  intro acc
  induction acc with
  | nil => intro _ hmem; simp at hmem
  | cons r rest ih =>
    intro hnd hmem m'
    rw [List.map_cons, List.nodup_cons] at hnd
    obtain ⟨hh, hnd'⟩ := hnd
    rw [List.map_cons]
    by_cases hm : r.module_id = m
    · have hrest : rest.map (bumpRow m t c) = rest := by
        conv_rhs => rw [← List.map_id rest]
        refine List.map_congr_left ?_
        intro x hx
        have hx' : x.module_id ≠ m := by
          intro hc
          exact hh (hm ▸ hc ▸ List.mem_map_of_mem _ hx)
        unfold bumpRow
        rw [if_neg hx']
        rfl
      have hbump : bumpRow m t c r
          = { r with total_seconds := r.total_seconds + t,
                     entry_count := r.entry_count + c } := by
        unfold bumpRow
        rw [if_pos hm]
      rw [hrest, hbump, rowsTotal_cons, rowsCount_cons, rowsTotal_cons, rowsCount_cons]
      constructor
      · by_cases hmm : m' = m
        · have hrm : r.module_id = m' := by rw [hm, hmm]
          simp [hrm, hmm]
          ring
        · have hrm : ¬ (r.module_id = m') := by rw [hm]; exact fun hc => hmm hc.symm
          simp [hrm, hmm]
      · by_cases hmm : m' = m
        · have hrm : r.module_id = m' := by rw [hm, hmm]
          simp [hrm, hmm]
          omega
        · have hrm : ¬ (r.module_id = m') := by rw [hm]; exact fun hc => hmm hc.symm
          simp [hrm, hmm]
    · have hmem' : m ∈ rest.map (fun r => r.module_id) := by
        rcases List.mem_cons.mp hmem with h | h
        · exact absurd h.symm hm
        · exact h
      have hbump : bumpRow m t c r = r := by
        unfold bumpRow
        rw [if_neg hm]
      obtain ⟨iht, ihc⟩ := ih hnd' hmem' m'
      rw [hbump, rowsTotal_cons, rowsCount_cons, rowsTotal_cons, rowsCount_cons, iht, ihc]
      constructor
      · ring
      · omega

theorem rows_addToBucket (acc : List ModuleRow) (m : Nat) (t : Int) (c : Nat)
    (hnd : (acc.map (fun r => r.module_id)).Nodup) (m' : Nat) :
    rowsTotal m' (addToBucket acc m t c) = rowsTotal m' acc + (if m' = m then t else 0)
    ∧ rowsCount m' (addToBucket acc m t c)
        = rowsCount m' acc + (if m' = m then c else 0) := by
  unfold addToBucket
  by_cases h : acc.any (fun r => r.module_id = m)
  · rw [if_pos h]
    rcases List.any_eq_true.mp h with ⟨r, hr, hid⟩
    have hmem : m ∈ acc.map (fun r => r.module_id) := by
      have : r.module_id = m := by simpa using hid
      exact this ▸ List.mem_map_of_mem _ hr
    exact rows_map_bump m t c acc hnd hmem m'
  · rw [if_neg h]
    unfold rowsTotal rowsCount
    by_cases hmm : m' = m
    · subst hmm
      simp
    · have hne : m ≠ m' := fun hc => hmm hc.symm
      simp [hne, hmm]

theorem moduleBuckets_fold (db : Db) :
    ∀ (irs : List IssueRow) (acc : List ModuleRow),
      (acc.map (fun r => r.module_id)).Nodup →
      (((irs.foldl (bucketStep db) acc).map (fun r => r.module_id)).Nodup)
      ∧ (∀ m', rowsTotal m' (irs.foldl (bucketStep db) acc)
            = rowsTotal m' acc
              + ((irs.filter (fun ir => firstModuleOf db ir.issue_id = some m')).map
                  (fun ir => ir.total_seconds)).sum)
      ∧ (∀ m', rowsCount m' (irs.foldl (bucketStep db) acc)
            = rowsCount m' acc
              + ((irs.filter (fun ir => firstModuleOf db ir.issue_id = some m')).map
                  (fun ir => ir.entry_count)).sum)
      ∧ (∀ m', (∃ r ∈ irs.foldl (bucketStep db) acc, r.module_id = m')
            ↔ (∃ r ∈ acc, r.module_id = m')
              ∨ ∃ ir ∈ irs, firstModuleOf db ir.issue_id = some m') := by
  intro irs
  induction irs with
  | nil =>
    intro acc hnd
    refine ⟨hnd, ?_, ?_, ?_⟩ <;> simp
  | cons ir irs ih =>
    intro acc hnd
    rw [List.foldl_cons]
    cases hfm : firstModuleOf db ir.issue_id with
    | none =>
      have hstep : bucketStep db acc ir = acc := by
        unfold bucketStep
        rw [hfm]
      rw [hstep]
      obtain ⟨h1, h2, h3, h4⟩ := ih acc hnd
      have hskip : ∀ m', ((ir :: irs).filter
          (fun ir => firstModuleOf db ir.issue_id = some m'))
          = irs.filter (fun ir => firstModuleOf db ir.issue_id = some m') := by
        intro m'
        rw [List.filter_cons_of_neg (by simp [hfm])]
      refine ⟨h1, ?_, ?_, ?_⟩
      · intro m'
        rw [h2 m', hskip m']
      · intro m'
        rw [h3 m', hskip m']
      · intro m'
        rw [h4 m']
        simp [hfm]
    | some m =>
      have hstep : bucketStep db acc ir
          = addToBucket acc m ir.total_seconds ir.entry_count := by
        unfold bucketStep
        rw [hfm]
      rw [hstep]
      have hnd' := nodup_keys_addToBucket acc m ir.total_seconds ir.entry_count hnd
      obtain ⟨h1, h2, h3, h4⟩ := ih _ hnd'
      refine ⟨h1, ?_, ?_, ?_⟩
      · intro m'
        rw [h2 m', (rows_addToBucket acc m ir.total_seconds ir.entry_count hnd m').1]
        by_cases hmm : m' = m
        · subst hmm
          rw [List.filter_cons_of_pos (by simp [hfm])]
          simp only [List.map_cons, List.sum_cons, if_true, eq_self_iff_true]
          ring
        · rw [List.filter_cons_of_neg (by simp [hfm]; exact fun hc => hmm hc.symm)]
          rw [if_neg hmm]
          ring
      · intro m'
        rw [h3 m', (rows_addToBucket acc m ir.total_seconds ir.entry_count hnd m').2]
        by_cases hmm : m' = m
        · subst hmm
          rw [List.filter_cons_of_pos (by simp [hfm])]
          simp only [List.map_cons, List.sum_cons, if_true, eq_self_iff_true]
          omega
        · rw [List.filter_cons_of_neg (by simp [hfm]; exact fun hc => hmm hc.symm)]
          rw [if_neg hmm]
          omega
      · intro m'
        rw [h4 m', exists_key_addToBucket]
        simp only [List.mem_cons]
        constructor
        · rintro ((h | h) | h)
          · exact Or.inl h
          · exact Or.inr ⟨ir, Or.inl rfl, by rw [hfm, h]⟩
          · rcases h with ⟨x, hx, hfx⟩
            exact Or.inr ⟨x, Or.inr hx, hfx⟩
        · rintro (h | ⟨x, hx | hx, hfx⟩)
          · exact Or.inl (Or.inl h)
          · subst hx
            rw [hfm] at hfx
            exact Or.inl (Or.inr (Option.some_injective _ hfx).symm)
          · exact Or.inr ⟨x, hx, hfx⟩

theorem filter_key_eq_singleton {rows : List ModuleRow}
    (hnd : (rows.map (fun r => r.module_id)).Nodup) {r : ModuleRow} (hr : r ∈ rows) :
    rows.filter (fun x => x.module_id = r.module_id) = [r] := by
  induction rows with
  | nil => cases hr
  | cons h rest ih =>
    rw [List.map_cons, List.nodup_cons] at hnd
    obtain ⟨hh, hnd'⟩ := hnd
    rcases List.mem_cons.mp hr with rfl | hr
    · rw [List.filter_cons_of_pos (by simp)]
      have hnil : rest.filter (fun x => x.module_id = r.module_id) = [] := by
        refine List.filter_eq_nil_iff.mpr ?_
        intro a ha hc
        have hca : a.module_id = r.module_id := by simpa using hc
        exact hh (hca ▸ List.mem_map_of_mem _ ha)
      rw [hnil]
    · have hne : h.module_id ≠ r.module_id := fun hc =>
        hh (hc ▸ List.mem_map_of_mem _ hr)
      rw [List.filter_cons_of_neg (by simp [hne])]
      exact ih hnd' hr

theorem rows_of_mem {rows : List ModuleRow}
    (hnd : (rows.map (fun r => r.module_id)).Nodup) {r : ModuleRow} (hr : r ∈ rows) :
    rowsTotal r.module_id rows = r.total_seconds
    ∧ rowsCount r.module_id rows = r.entry_count := by
  unfold rowsTotal rowsCount
  rw [filter_key_eq_singleton hnd hr]
  simp

/-! ### Miscellaneous list facts -/

theorem sum_map_one {α : Type} (l : List α) : (l.map (fun _ => (1 : Nat))).sum = l.length := by
  induction l with
  | nil => rfl
  | cons a l ih => simp [ih]; omega

theorem find?_of_filter_singleton {α : Type} {p : α → Bool} {l : List α} {e : α}
    (h : l.filter p = [e]) : l.find? p = some e := by
  induction l with
  | nil => simp at h
  | cons a l ih =>
    by_cases hp : p a
    · rw [List.filter_cons_of_pos hp] at h
      rw [List.find?_cons_of_pos _ hp]
      exact congrArg some (List.cons.inj h).1
    · rw [List.filter_cons_of_neg hp] at h
      rw [List.find?_cons_of_neg _ hp]
      exact ih h

/-! ### Behaviour of the timer endpoints -/

theorem startTimer_conflict {db : Db} {slug pid iid user : Nat} {now : Int}
    {note : String} {bill : Bool} {issue : Issue} {e : TimeEntry}
    (htt : checkTimeTracking db pid = none)
    (hi : findIssue db slug pid iid = some issue)
    (hmem : e ∈ db.entries) (hiss : e.issue = iid) (husr : e.user = user)
    (hrun : isRunningRow e = true) :
    startTimer db slug pid iid user now note bill = (Except.error ApiError.conflict, db) := by
  unfold startTimer
  rw [htt, hi]
  obtain ⟨x, hx⟩ : ∃ x,
      db.entries.find? (fun e => e.issue = iid && e.user = user && isRunningRow e) = some x :=
    Option.isSome_iff_exists.mp
      (List.find?_isSome.mpr ⟨e, hmem, by simp [hiss, husr, hrun]⟩)
  rw [hx]

theorem startTimer_success {db : Db} {slug pid iid user : Nat} {now : Int}
    {note : String} {bill : Bool} {issue : Issue}
    (htt : checkTimeTracking db pid = none)
    (hi : findIssue db slug pid iid = some issue)
    (hno : ∀ x ∈ db.entries, x.user = user → x.issue = iid → isRunningRow x = false) :
    startTimer db slug pid iid user now note bill =
      (Except.ok (newTimerEntry db issue iid user now note bill),
        { db with
          entries := stopOthers db iid user now
            ++ [newTimerEntry db issue iid user now note bill]
          nextId := db.nextId + 1 }) := by
  unfold startTimer
  rw [htt, hi]
  have hf : db.entries.find? (fun e => e.issue = iid && e.user = user && isRunningRow e)
      = none := by
    refine List.find?_eq_none.mpr ?_
    intro x hx hcontra
    simp only [Bool.and_eq_true, decide_eq_true_eq] at hcontra
    obtain ⟨⟨hxi, hxu⟩, hxr⟩ := hcontra
    rw [hno x hx hxu hxi] at hxr
    cases hxr
  rw [hf]

theorem stopped_mem_stopOthers {db : Db} {iid user : Nat} {now : Int} {e : TimeEntry}
    (hmem : e ∈ db.entries) (husr : e.user = user) (hne : e.issue ≠ iid)
    (hrun : isRunningRow e = true) :
    stopEntry now e ∈ stopOthers db iid user now := by
  unfold stopOthers
  have hcond : (e.user = user && e.issue ≠ iid && isRunningRow e) = true := by
    simp [husr, hne, hrun]
  have : (if e.user = user && e.issue ≠ iid && isRunningRow e then stopEntry now e else e)
      = stopEntry now e := if_pos hcond
  exact this ▸ List.mem_map_of_mem _ hmem

theorem running_filter_after_start {db : Db} {iid user : Nat} {now : Int}
    {note : String} {bill : Bool} {issue : Issue}
    (hno : ∀ x ∈ db.entries, x.user = user → x.issue = iid → isRunningRow x = false) :
    (stopOthers db iid user now
        ++ [newTimerEntry db issue iid user now note bill]).filter
        (fun x => x.user = user && isRunningRow x)
      = [newTimerEntry db issue iid user now note bill] := by
  rw [List.filter_append]
  have h1 : (stopOthers db iid user now).filter (fun x => x.user = user && isRunningRow x)
      = [] := by
    refine List.filter_eq_nil_iff.mpr ?_
    intro a ha hcontra
    simp only [Bool.and_eq_true, decide_eq_true_eq] at hcontra
    obtain ⟨hau, har⟩ := hcontra
    unfold stopOthers at ha
    rcases List.mem_map.mp ha with ⟨e0, he0, heq⟩
    by_cases hc : (e0.user = user && e0.issue ≠ iid && isRunningRow e0) = true
    · rw [if_pos hc] at heq
      subst heq
      unfold stopEntry isRunningRow at har
      simp at har
    · rw [if_neg hc] at heq
      subst heq
      simp only [Bool.and_eq_true, decide_eq_true_eq, not_and] at hc
      by_cases hiq : e0.issue = iid
      · rw [hno e0 he0 hau hiq] at har
        cases har
      · exact absurd har (hc ⟨hau, hiq⟩)
  have h2 : [newTimerEntry db issue iid user now note bill].filter
      (fun x => x.user = user && isRunningRow x)
      = [newTimerEntry db issue iid user now note bill] := by
    refine List.filter_eq_self.mpr ?_
    intro a ha
    simp only [List.mem_singleton] at ha
    subst ha
    unfold newTimerEntry isRunningRow
    simp
  rw [h1, h2, List.nil_append]

theorem stopTimer_ok {db db' : Db} {slug pid iid user : Nat} {now : Int} {t : TimeEntry}
    (h : stopTimer db slug pid iid user now = (Except.ok t, db')) :
    ∃ t0 s, db.entries.find? (fun e => e.issue = iid && e.user = user && isRunningRow e)
        = some t0
      ∧ t0.started_at = some s
      ∧ t = stopEntry now t0
      ∧ t.started_at = some s
      ∧ t.duration_seconds = elapsed_seconds s now := by
  unfold stopTimer at h
  cases htt : checkTimeTracking db pid with
  | some err => rw [htt] at h; simp at h
  | none =>
    rw [htt] at h
    cases hf : db.entries.find? (fun e => e.issue = iid && e.user = user && isRunningRow e) with
    | none => rw [hf] at h; simp at h
    | some t0 =>
      rw [hf] at h
      have hp := List.find?_some hf
      simp only [Bool.and_eq_true, decide_eq_true_eq] at hp
      obtain ⟨⟨_, _⟩, hrun⟩ := hp
      unfold isRunningRow at hrun
      simp only [Bool.and_eq_true, Option.isSome_iff_exists] at hrun
      obtain ⟨⟨s, hs⟩, _⟩ := hrun
      have ht : t = stopEntry now t0 := by
        have := congrArg Prod.fst h
        simp only at this
        exact (Except.ok.inj this).symm
      refine ⟨t0, s, rfl, hs, ht, ?_, ?_⟩
      · rw [ht]; unfold stopEntry; simpa using hs
      · rw [ht]; unfold stopEntry; simp [hs]

theorem startTimer_preserves_nonneg (db : Db) (slug pid iid user : Nat) (now : Int)
    (note : String) (bill : Bool)
    (h : ∀ e ∈ db.entries, 0 ≤ e.duration_seconds) :
    ∀ e ∈ (startTimer db slug pid iid user now note bill).2.entries,
      0 ≤ e.duration_seconds := by
  unfold startTimer
  cases htt : checkTimeTracking db pid with
  | some err => simpa using h
  | none =>
    cases hi : findIssue db slug pid iid with
    | none => simpa using h
    | some issue =>
      cases hf : db.entries.find?
          (fun e => e.issue = iid && e.user = user && isRunningRow e) with
      | some t0 => simpa using h
      | none =>
        simp only
        intro e he
        rcases List.mem_append.mp he with he | he
        · unfold stopOthers at he
          rcases List.mem_map.mp he with ⟨e0, he0, heq⟩
          by_cases hc : (e0.user = user && e0.issue ≠ iid && isRunningRow e0) = true
          · rw [if_pos hc] at heq
            subst heq
            unfold stopEntry
            cases hse : e0.started_at with
            | some s => simp only [hse]; exact elapsed_seconds_nonneg s now
            | none => simp only [hse]; exact h e0 he0
          · rw [if_neg hc] at heq
            subst heq
            exact h e0 he0
        · simp only [List.mem_singleton] at he
          subst he
          unfold newTimerEntry
          simp

theorem stopTimer_preserves_nonneg (db : Db) (slug pid iid user : Nat) (now : Int)
    (h : ∀ e ∈ db.entries, 0 ≤ e.duration_seconds) :
    ∀ e ∈ (stopTimer db slug pid iid user now).2.entries, 0 ≤ e.duration_seconds := by
  unfold stopTimer
  cases htt : checkTimeTracking db pid with
  | some err => simpa using h
  | none =>
    cases hf : db.entries.find?
        (fun e => e.issue = iid && e.user = user && isRunningRow e) with
    | none => simpa using h
    | some t0 =>
      simp only
      intro e he
      rcases List.mem_map.mp he with ⟨e0, he0, heq⟩
      by_cases hc : (e0.id = t0.id) = true
      · rw [if_pos (by simpa using hc)] at heq
        subst heq
        unfold stopEntry
        cases hse : t0.started_at with
        | some s => simp only [hse]; exact elapsed_seconds_nonneg s now
        | none => simp only [hse]; exact h t0 (List.mem_of_find?_eq_some hf)
      · rw [if_neg (by simpa using hc)] at heq
        subst heq
        exact h e0 he0

/-! ### Bridging the per-issue rows to per-entry sums -/

theorem irs_filter_sum (db : Db) (base : List TimeEntry) (m : Nat) :
    ((((keysOf (base.map (fun e => e.issue))).map (issueRowOf base)).filter
        (fun ir => firstModuleOf db ir.issue_id = some m)).map
        (fun ir => ir.total_seconds)).sum
      = ((base.filter (fun e => firstModuleOf db e.issue = some m)).map
          (fun e => e.duration_seconds)).sum := by
  rw [List.filter_map, List.map_map]
  have h1 : (keysOf (base.map (fun e => e.issue))).filter
      ((fun ir => decide (firstModuleOf db ir.issue_id = some m)) ∘ issueRowOf base)
      = (keysOf (base.map (fun e => e.issue))).filter
        (fun k => firstModuleOf db k = some m) :=
    List.filter_congr (fun k _ => rfl)
  rw [h1]
  have h2 : ((keysOf (base.map (fun e => e.issue))).filter
        (fun k => firstModuleOf db k = some m)).map
        ((fun ir : IssueRow => ir.total_seconds) ∘ issueRowOf base)
      = ((keysOf (base.map (fun e => e.issue))).filter
        (fun k => firstModuleOf db k = some m)).map
        (fun k => ((base.filter (fun x => x.issue = k)).map
          (fun x => x.duration_seconds)).sum) :=
    List.map_congr_left (fun k _ => rfl)
  rw [h2]
  exact sum_over_keys (fun e => e.issue) (fun e => e.duration_seconds)
    (fun k => firstModuleOf db k = some m) (keysOf (base.map (fun e => e.issue))) base
    (nodup_keysOf _) (fun x hx => mem_keysOf.mpr (List.mem_map_of_mem _ hx))

theorem irs_filter_count (db : Db) (base : List TimeEntry) (m : Nat) :
    ((((keysOf (base.map (fun e => e.issue))).map (issueRowOf base)).filter
        (fun ir => firstModuleOf db ir.issue_id = some m)).map
        (fun ir => ir.entry_count)).sum
      = (base.filter (fun e => firstModuleOf db e.issue = some m)).length := by
  rw [List.filter_map, List.map_map]
  have h1 : (keysOf (base.map (fun e => e.issue))).filter
      ((fun ir => decide (firstModuleOf db ir.issue_id = some m)) ∘ issueRowOf base)
      = (keysOf (base.map (fun e => e.issue))).filter
        (fun k => firstModuleOf db k = some m) :=
    List.filter_congr (fun k _ => rfl)
  rw [h1]
  have h2 : ((keysOf (base.map (fun e => e.issue))).filter
        (fun k => firstModuleOf db k = some m)).map
        ((fun ir : IssueRow => ir.entry_count) ∘ issueRowOf base)
      = ((keysOf (base.map (fun e => e.issue))).filter
        (fun k => firstModuleOf db k = some m)).map
        (fun k => ((base.filter (fun x => x.issue = k)).map
          (fun _ => (1 : Nat))).sum) :=
    List.map_congr_left (fun k _ => (sum_map_one _).symm)
  rw [h2]
  rw [sum_over_keys (fun e => e.issue) (fun _ => (1 : Nat))
    (fun k => firstModuleOf db k = some m) (keysOf (base.map (fun e => e.issue))) base
    (nodup_keysOf _) (fun x hx => mem_keysOf.mpr (List.mem_map_of_mem _ hx))]
  exact sum_map_one _

/-! ### Claim theorems -/

/-- C2 (counterexample): the claim's MANUAL payload — `started_at` 10:00,
`ended_at` 11:30, no `duration_seconds` — does not succeed with
`duration_seconds = 5400`: both create-path validators raise
`ValidationError(duration_seconds)` before the auto-derivation step can run. -/
theorem c2_counterexample :
    teValidate
        { source := some TimeEntrySource.manual
          started_at := some t1000
          ended_at := some t1130
          duration_seconds := none }
      = Except.error "duration_seconds"
    ∧ (viewCreate db1 0 1 10 7 t1130
        { issue_id := 10
          duration_seconds := none
          started_at := some t1000
          ended_at := some t1130
          source := some TimeEntrySource.manual
          note := none
          is_billable := none }).1
      = Except.error (ApiError.validation "duration_seconds") :=
  ⟨rfl, rfl⟩

/-- C2 (amended): a MANUAL create payload without `duration_seconds` is
rejected with `ValidationError(duration_seconds)` whatever its instants; the
`elapsed_seconds` auto-derivation does run when the MANUAL duration check does
not fire — with `source = TIMER` and the claim's instants, validation succeeds
and stores `duration_seconds = 5400`. -/
theorem c2_amended :
    (∀ s e : Int,
      teValidate
          { source := some TimeEntrySource.manual
            started_at := some s
            ended_at := some e
            duration_seconds := none }
        = Except.error "duration_seconds")
    ∧ teValidate
        { source := some TimeEntrySource.timer
          started_at := some t1000
          ended_at := some t1130
          duration_seconds := none }
      = Except.ok
        { source := some TimeEntrySource.timer
          started_at := some t1000
          ended_at := some t1130
          duration_seconds := some 5400 } :=
  ⟨fun _ _ => rfl, rfl⟩

/-- C3 (counterexample): with time tracking disabled on the owning project,
`get_active` does not fail with FeatureDisabled: the view performs no feature
check and answers 200 with an empty active timer. -/
theorem c3_counterexample :
    checkTimeTracking db1 2 = some ApiError.featureDisabled
    ∧ activeTimerGet db1 0 2 20 7 = Except.ok none :=
  ⟨rfl, rfl⟩

/-- C3 (amended): when the owning project has time tracking disabled, timer
start and stop fail with FeatureDisabled before any other validation (no
assumption on the issue or the timer state is needed), while `get_active`
performs no feature check and always answers successfully. -/
theorem c3_amended (db : Db) (slug pid iid user : Nat) (now : Int)
    (note : String) (bill : Bool) (p : Project)
    (hp : findProject db pid = some p)
    (hoff : p.is_time_tracking_enabled = false) :
    startTimer db slug pid iid user now note bill
        = (Except.error ApiError.featureDisabled, db)
    ∧ stopTimer db slug pid iid user now = (Except.error ApiError.featureDisabled, db)
    ∧ ∃ r, activeTimerGet db slug pid iid user = Except.ok r := by
  have hc : checkTimeTracking db pid = some ApiError.featureDisabled := by
    unfold checkTimeTracking
    rw [hp]
    simp [hoff]
  refine ⟨?_, ?_, ⟨_, rfl⟩⟩
  · unfold startTimer
    rw [hc]
  · unfold stopTimer
    rw [hc]

theorem c3_amended_witness :
    startTimer db1 0 2 20 7 0 "" false = (Except.error ApiError.featureDisabled, db1)
    ∧ stopTimer db1 0 2 20 7 0 = (Except.error ApiError.featureDisabled, db1)
    ∧ ∃ r, activeTimerGet db1 0 2 20 7 = Except.ok r :=
  c3_amended db1 0 2 20 7 0 "" false projOff rfl rfl

/-- C4: starting a timer for a user on an issue where that user already has a
running row fails with Conflict, and the returned store is the input store —
no entry is created or modified. -/
theorem c4_same_issue_conflict (db : Db) (slug pid iid user : Nat) (now : Int)
    (note : String) (bill : Bool) (issue : Issue) (e : TimeEntry)
    (htt : checkTimeTracking db pid = none)
    (hi : findIssue db slug pid iid = some issue)
    (hmem : e ∈ db.entries) (hiss : e.issue = iid) (husr : e.user = user)
    (hrun : isRunningRow e = true) :
    startTimer db slug pid iid user now note bill
      = (Except.error ApiError.conflict, db) :=
  startTimer_conflict htt hi hmem hiss husr hrun

theorem c4_same_issue_conflict_witness :
    startTimer db1 0 1 10 7 123 "" false = (Except.error ApiError.conflict, db1) :=
  c4_same_issue_conflict db1 0 1 10 7 123 "" false issueA runningA rfl rfl
    (by decide) rfl rfl rfl

/-- C5: `elapsed_seconds` equals `max(0, floor((end − start) in seconds))` and
is never negative; a successful timer stop stores
`duration_seconds = elapsed_seconds(started_at, now)`, which is non-negative;
and both timer operations preserve non-negativity of every stored duration. -/
theorem c5_duration_engine :
    (∀ s t : Int,
      elapsed_seconds s t = max 0 (Int.fdiv (t - s) 1000000)
      ∧ 0 ≤ elapsed_seconds s t)
    ∧ (∀ db db' slug pid iid user t, ∀ now : Int,
        stopTimer db slug pid iid user now = (Except.ok t, db') →
        ∃ s, t.started_at = some s ∧ t.duration_seconds = elapsed_seconds s now
          ∧ 0 ≤ t.duration_seconds)
    ∧ (∀ db slug pid iid user note bill, ∀ now : Int,
        (∀ e ∈ db.entries, 0 ≤ e.duration_seconds) →
        (∀ e ∈ (startTimer db slug pid iid user now note bill).2.entries,
          0 ≤ e.duration_seconds)
        ∧ (∀ e ∈ (stopTimer db slug pid iid user now).2.entries,
          0 ≤ e.duration_seconds)) := by
  refine ⟨?_, ?_, ?_⟩
  · intro s t
    exact ⟨max_tdiv_eq_max_fdiv (t - s), elapsed_seconds_nonneg s t⟩
  · intro db db' slug pid iid user t now h
    obtain ⟨t0, s, _, _, _, hts, htd⟩ := stopTimer_ok h
    refine ⟨s, hts, htd, ?_⟩
    rw [htd]
    exact elapsed_seconds_nonneg s now
  · intro db slug pid iid user note bill now h
    exact ⟨startTimer_preserves_nonneg db slug pid iid user now note bill h,
      stopTimer_preserves_nonneg db slug pid iid user now h⟩

theorem c5_duration_engine_witness :
    (elapsed_seconds 0 5400000000 = max 0 (Int.fdiv (5400000000 - 0) 1000000))
    ∧ (∃ s, stoppedA.started_at = some s
        ∧ stoppedA.duration_seconds = elapsed_seconds s 5400000000
        ∧ 0 ≤ stoppedA.duration_seconds)
    ∧ (∀ e ∈ (startTimer db1 0 1 11 7 99 "" false).2.entries,
        0 ≤ e.duration_seconds) :=
  ⟨(c5_duration_engine.1 0 5400000000).1,
   c5_duration_engine.2.1 db1 db1Stopped 0 1 10 7 stoppedA 5400000000 rfl,
   (c5_duration_engine.2.2 db1 0 1 11 7 "" false 99 (by decide)).1⟩

/-- C8: updating an entry that has both instants set, with a payload that
leaves `started_at`/`ended_at` untouched and supplies an explicit positive
`duration_seconds`, stores exactly the supplied value — the manual override
wins over the derived `ended_at − started_at`. -/
theorem c8_manual_override (inst : TimeEntry) (d : UpdatePayload) (s e dv : Int)
    (hs : inst.started_at = some s) (he : inst.ended_at = some e) (hse : s ≤ e)
    (hds : d.started_at = none) (hde : d.ended_at = none)
    (hdv : d.duration_seconds = some dv) (hpos : 0 < dv) :
    ∃ r, viewPartialUpdate inst d = Except.ok r ∧ r.duration_seconds = dv := by
  unfold viewPartialUpdate updateValidate
  simp only [hds, hde, hs, he]
  rw [if_neg (not_lt.mpr hse)]
  simp only [hdv]
  rw [if_neg (by omega : ¬ dv = 0)]
  refine ⟨applyUpdate inst d, rfl, ?_⟩
  unfold applyUpdate
  rw [hdv]
  rfl

theorem c8_manual_override_witness :
    ∃ r, viewPartialUpdate instUpd patchUpd = Except.ok r
      ∧ r.duration_seconds = 4000 :=
  c8_manual_override instUpd patchUpd t1000 t1130 4000 rfl rfl (by decide)
    rfl rfl rfl (by decide)

/-- C9: the issue-scoped create endpoint overwrites the payload's source with
MANUAL after validation.  For a payload with `source = TIMER` and no
`duration_seconds` — which the quick-create validator accepts, defaulting
`started_at` to now — it persists an entry with `source = MANUAL` and
`duration_seconds = 0`, contradicting the rule that MANUAL entries have a
positive duration at creation. -/
theorem c9_create_overwrites_source :
    viewCreate db1 0 1 10 7 777 timerPayload = (Except.ok c9entry, c9db)
    ∧ c9entry.source = TimeEntrySource.manual
    ∧ c9entry.duration_seconds = 0
    ∧ c9entry.started_at = some 777
    ∧ c9entry ∈ c9db.entries
    ∧ ¬ 0 < c9entry.duration_seconds :=
  ⟨rfl, rfl, rfl, rfl, by decide, by decide⟩

/-- C1: starting a timer for a user on issue B while that user's only running
rows live on a different issue A succeeds, creates a fresh Running TIMER
entry on B (`started_at = now`, `duration_seconds = 0`), stops the entry on A
(`ended_at = now`, `duration_seconds = elapsed_seconds(started_at, now)`),
and afterwards the user's running rows are exactly the new entry on B. -/
theorem c1_start_preempts (db : Db) (slug pid iidA iidB user : Nat)
    (now : Int) (note : String) (bill : Bool) (issB : Issue) (eA : TimeEntry)
    (htt : checkTimeTracking db pid = none)
    (hiB : findIssue db slug pid iidB = some issB)
    (hmem : eA ∈ db.entries) (husr : eA.user = user) (hiss : eA.issue = iidA)
    (hrun : isRunningRow eA = true) (hne : iidA ≠ iidB)
    (hnoB : ∀ x ∈ db.entries, x.user = user → x.issue = iidB → isRunningRow x = false) :
    ∃ newE db', startTimer db slug pid iidB user now note bill = (Except.ok newE, db')
      ∧ newE.issue = iidB ∧ newE.source = TimeEntrySource.timer
      ∧ newE.started_at = some now ∧ newE.duration_seconds = 0
      ∧ (∃ s, eA.started_at = some s
          ∧ { eA with ended_at := some now,
                      duration_seconds := elapsed_seconds s now } ∈ db'.entries)
      ∧ db'.entries.filter (fun x => x.user = user && isRunningRow x) = [newE] := by
  refine ⟨newTimerEntry db issB iidB user now note bill, _,
    startTimer_success htt hiB hnoB, rfl, rfl, rfl, rfl, ?_, ?_⟩
  · obtain ⟨s, hs⟩ : ∃ s, eA.started_at = some s := by
      unfold isRunningRow at hrun
      simp only [Bool.and_eq_true, Option.isSome_iff_exists] at hrun
      exact hrun.1
    refine ⟨s, hs, ?_⟩
    have hneB : eA.issue ≠ iidB := by rw [hiss]; exact hne
    have hmem2 := @stopped_mem_stopOthers db iidB user now eA hmem husr hneB hrun
    have hstop : stopEntry now eA
        = { eA with ended_at := some now,
                    duration_seconds := elapsed_seconds s now } := by
      unfold stopEntry
      rw [hs]
    exact List.mem_append_left _ (hstop ▸ hmem2)
  · exact running_filter_after_start hnoB

theorem c1_start_preempts_witness :
    ∃ newE db', startTimer db1 0 1 11 7 5400000000 "" false = (Except.ok newE, db')
      ∧ newE.issue = 11 ∧ newE.source = TimeEntrySource.timer
      ∧ newE.started_at = some 5400000000 ∧ newE.duration_seconds = 0
      ∧ (∃ s, runningA.started_at = some s
          ∧ { runningA with ended_at := some 5400000000,
                            duration_seconds := elapsed_seconds s 5400000000 } ∈ db'.entries)
      ∧ db'.entries.filter (fun x => x.user = 7 && isRunningRow x) = [newE] :=
  c1_start_preempts db1 0 1 10 11 7 5400000000 "" false issueB runningA
    rfl rfl (by decide) rfl rfl rfl (by decide) (by decide)

/-- C10: the timer endpoints select rows by `started_at` set and `ended_at`
null without restricting source, so a MANUAL row with those fields behaves as
an active timer: start on its issue fails with Conflict, start on another
issue silently stops it, and `get_active` returns it — even though the
serialized `is_active` field for such a row is false because its source is
not TIMER. -/
theorem c10_source_blind_queries (db : Db) (slug pid iidA iidB user : Nat)
    (now : Int) (note : String) (bill : Bool) (issA issB : Issue) (e : TimeEntry)
    (htt : checkTimeTracking db pid = none)
    (hiA : findIssue db slug pid iidA = some issA)
    (hiB : findIssue db slug pid iidB = some issB)
    (hmem : e ∈ db.entries) (hiss : e.issue = iidA) (husr : e.user = user)
    (hstarted : e.started_at.isSome = true) (hended : e.ended_at = none)
    (hmanual : e.source = TimeEntrySource.manual)
    (hfilter : db.entries.filter
        (fun x => x.issue = iidA && x.user = user && isRunningRow x) = [e])
    (hne : iidA ≠ iidB)
    (hnoB : ∀ x ∈ db.entries, x.user = user → x.issue = iidB → isRunningRow x = false) :
    startTimer db slug pid iidA user now note bill = (Except.error ApiError.conflict, db)
    ∧ (∃ newE db', startTimer db slug pid iidB user now note bill = (Except.ok newE, db')
        ∧ stopEntry now e ∈ db'.entries)
    ∧ activeTimerGet db slug pid iidA user = Except.ok (some e)
    ∧ isActiveRepr e = false := by
  have hrun : isRunningRow e = true := by
    unfold isRunningRow
    rw [hended, hstarted]
    rfl
  refine ⟨startTimer_conflict htt hiA hmem hiss husr hrun, ?_, ?_, ?_⟩
  · refine ⟨newTimerEntry db issB iidB user now note bill, _,
      startTimer_success htt hiB hnoB, ?_⟩
    have hneB : e.issue ≠ iidB := by rw [hiss]; exact hne
    exact List.mem_append_left _ (stopped_mem_stopOthers hmem husr hneB hrun)
  · unfold activeTimerGet
    rw [find?_of_filter_singleton hfilter]
  · unfold isActiveRepr
    rw [hmanual]
    simp

theorem c10_source_blind_queries_witness :
    startTimer db2 0 1 10 7 55 "" false = (Except.error ApiError.conflict, db2)
    ∧ (∃ newE db', startTimer db2 0 1 11 7 55 "" false = (Except.ok newE, db')
        ∧ stopEntry 55 manualRunning ∈ db'.entries)
    ∧ activeTimerGet db2 0 1 10 7 = Except.ok (some manualRunning)
    ∧ isActiveRepr manualRunning = false :=
  c10_source_blind_queries db2 0 1 10 11 7 55 "" false issueA issueB manualRunning
    rfl rfl rfl (by decide) rfl rfl rfl rfl rfl (by decide) (by decide) (by decide)

/-- C6: for every workspace (and optional project/user filter), the
`group_by=user` report aggregates only completed entries, yields one row per
user id carrying the sum of that user's `duration_seconds` and the count of
that user's matching entries, and is ordered by `total_seconds` descending;
the claim's example `{U1:3600s, U1:1800s, U2:900s}` yields
`[{U1,5400,2},{U2,900,1}]`. -/
theorem c6_report_group_by_user (db : Db) (slug : Nat) (pid uid : Option Nat) :
    (∀ e ∈ reportBase db slug pid uid, e.ended_at.isSome = true)
    ∧ (reportByUser db slug pid uid).Pairwise
        (fun a b => b.total_seconds ≤ a.total_seconds)
    ∧ ((reportByUser db slug pid uid).map (fun r => r.user_id)).Nodup
    ∧ (∀ u, (∃ r ∈ reportByUser db slug pid uid, r.user_id = u)
        ↔ ∃ e ∈ reportBase db slug pid uid, e.user = u)
    ∧ (∀ r ∈ reportByUser db slug pid uid,
        r.total_seconds
            = (((reportBase db slug pid uid).filter (fun e => e.user = r.user_id)).map
                (fun e => e.duration_seconds)).sum
        ∧ r.entry_count
            = ((reportBase db slug pid uid).filter (fun e => e.user = r.user_id)).length)
    ∧ reportByUser dbReport 0 none none
        = [{ user_id := 1, total_seconds := 5400, entry_count := 2 },
           { user_id := 2, total_seconds := 900, entry_count := 1 }] := by
  have hperm : (reportByUser db slug pid uid).Perm
      ((keysOf ((reportBase db slug pid uid).map (fun e => e.user))).map
        (userRowOf (reportBase db slug pid uid))) :=
    perm_sortDesc _ _
  refine ⟨?_, ?_, ?_, ?_, ?_, by decide⟩
  · intro e he
    have hp := (List.mem_filter.mp he).2
    simp only [Bool.and_eq_true] at hp
    exact hp.1.1.2
  · exact pairwise_sortDesc _ _
  · have hmap : (((keysOf ((reportBase db slug pid uid).map (fun e => e.user))).map
        (userRowOf (reportBase db slug pid uid))).map (fun r => r.user_id))
        = keysOf ((reportBase db slug pid uid).map (fun e => e.user)) := by
      rw [List.map_map]
      conv_rhs => rw [← List.map_id (keysOf ((reportBase db slug pid uid).map
        (fun e => e.user)))]
      exact List.map_congr_left (fun u _ => rfl)
    have hnodup0 : (((keysOf ((reportBase db slug pid uid).map (fun e => e.user))).map
        (userRowOf (reportBase db slug pid uid))).map (fun r => r.user_id)).Nodup := by
      rw [hmap]
      exact nodup_keysOf ((reportBase db slug pid uid).map (fun e => e.user))
    exact ((hperm.map (fun r => r.user_id)).nodup_iff).mpr hnodup0
  · intro u
    constructor
    · rintro ⟨r, hr, hru⟩
      rcases List.mem_map.mp (hperm.mem_iff.mp hr) with ⟨k, hk, rfl⟩
      have hku : k = u := hru
      subst hku
      rcases List.mem_map.mp (mem_keysOf.mp hk) with ⟨e, he, heu⟩
      exact ⟨e, he, heu⟩
    · rintro ⟨e, he, heu⟩
      refine ⟨userRowOf (reportBase db slug pid uid) u, ?_, rfl⟩
      exact hperm.mem_iff.mpr
        (List.mem_map_of_mem _ (mem_keysOf.mpr (List.mem_map.mpr ⟨e, he, heu⟩)))
  · intro r hr
    rcases List.mem_map.mp (hperm.mem_iff.mp hr) with ⟨k, _, rfl⟩
    exact ⟨rfl, rfl⟩

theorem c6_report_group_by_user_witness :
    ({ user_id := 1, total_seconds := 5400, entry_count := 2 } : UserRow).total_seconds
      = (((reportBase dbReport 0 none none).filter (fun e => e.user = 1)).map
          (fun e => e.duration_seconds)).sum :=
  ((c6_report_group_by_user dbReport 0 none none).2.2.2.2.1
    { user_id := 1, total_seconds := 5400, entry_count := 2 } (by decide)).1

/-- C7: in the `group_by=module` report, every completed entry whose issue has
no module link is excluded (each row's totals range only over entries whose
issue's first module link matches the row, and a row exists only for such
modules — there is no null-module bucket), and an issue linked to several
modules has all its time attributed to its first matching module; in the
example, issue 10 is linked to modules 5 and 6 yet all its time lands on
module 5, and issue 12 (no module) appears in no bucket. -/
theorem c7_report_group_by_module (db : Db) (slug : Nat) (pid uid : Option Nat) :
    ((reportByModule db slug pid uid).map (fun r => r.module_id)).Nodup
    ∧ (∀ m, (∃ r ∈ reportByModule db slug pid uid, r.module_id = m)
        ↔ ∃ e ∈ reportBase db slug pid uid, firstModuleOf db e.issue = some m)
    ∧ (∀ r ∈ reportByModule db slug pid uid,
        r.total_seconds
            = (((reportBase db slug pid uid).filter
                (fun e => firstModuleOf db e.issue = some r.module_id)).map
                (fun e => e.duration_seconds)).sum
        ∧ r.entry_count
            = ((reportBase db slug pid uid).filter
                (fun e => firstModuleOf db e.issue = some r.module_id)).length)
    ∧ reportByModule dbModule 0 none none
        = [{ module_id := 5, total_seconds := 1000, entry_count := 1 }]
    ∧ firstModuleOf dbModule 10 = some 5
    ∧ (10, 6) ∈ dbModule.moduleIssues
    ∧ (∀ e ∈ reportBase dbModule 0 none none,
        e.issue = 12 → firstModuleOf dbModule e.issue = none) := by
  obtain ⟨hnd, htot, hcnt, hex⟩ := moduleBuckets_fold db
    ((keysOf ((reportBase db slug pid uid).map (fun e => e.issue))).map
      (issueRowOf (reportBase db slug pid uid))) [] (by simp)
  have hperm : (reportByModule db slug pid uid).Perm
      (moduleBuckets db
        ((keysOf ((reportBase db slug pid uid).map (fun e => e.issue))).map
          (issueRowOf (reportBase db slug pid uid)))) :=
    perm_sortDesc _ _
  refine ⟨?_, ?_, ?_, by decide, by decide, by decide, by decide⟩
  · exact ((hperm.map (fun r => r.module_id)).nodup_iff).mpr hnd
  · intro m
    have hiff : (∃ r ∈ reportByModule db slug pid uid, r.module_id = m)
        ↔ ∃ r ∈ ((keysOf ((reportBase db slug pid uid).map (fun e => e.issue))).map
            (issueRowOf (reportBase db slug pid uid))).foldl (bucketStep db) [],
          r.module_id = m :=
      ⟨fun ⟨r, hr, h⟩ => ⟨r, hperm.mem_iff.mp hr, h⟩,
       fun ⟨r, hr, h⟩ => ⟨r, hperm.mem_iff.mpr hr, h⟩⟩
    rw [hiff, hex m]
    constructor
    · rintro (⟨r, hr, _⟩ | ⟨ir, hir, hfm⟩)
      · simp at hr
      · rcases List.mem_map.mp hir with ⟨k, hk, rfl⟩
        rcases List.mem_map.mp (mem_keysOf.mp hk) with ⟨e, he, hek⟩
        refine ⟨e, he, ?_⟩
        rw [hek]
        exact hfm
    · rintro ⟨e, he, hfm⟩
      refine Or.inr ⟨issueRowOf (reportBase db slug pid uid) e.issue,
        List.mem_map_of_mem _ (mem_keysOf.mpr (List.mem_map_of_mem _ he)), hfm⟩
  · intro r hr
    have hrb := hperm.mem_iff.mp hr
    obtain ⟨hv1, hv2⟩ := rows_of_mem hnd hrb
    constructor
    · have h1 := htot r.module_id
      rw [show rowsTotal r.module_id ([] : List ModuleRow) = 0 from rfl, zero_add] at h1
      rw [← hv1, h1]
      exact irs_filter_sum db (reportBase db slug pid uid) r.module_id
    · have h1 := hcnt r.module_id
      rw [show rowsCount r.module_id ([] : List ModuleRow) = 0 from rfl, zero_add] at h1
      rw [← hv2, h1]
      exact irs_filter_count db (reportBase db slug pid uid) r.module_id

theorem c7_report_group_by_module_witness :
    ({ module_id := 5, total_seconds := 1000, entry_count := 1 } : ModuleRow).total_seconds
      = (((reportBase dbModule 0 none none).filter
          (fun e => firstModuleOf dbModule e.issue = some 5)).map
          (fun e => e.duration_seconds)).sum :=
  ((c7_report_group_by_module dbModule 0 none none).2.2.1
    { module_id := 5, total_seconds := 1000, entry_count := 1 } (by decide)).1

end PlaneTime
